import Mathlib

/-!
Shallow embedding of `src/cpptimer.h` (class `CppTimer` and its nested
`ScopedTimer`).

Modelling choices, each traceable to the source:

* `std::map` (both `tics` and `data`) is modelled as an association list
  with first-occurrence lookup; `insertKV` overwrites an existing key in
  place (the semantics of `m[k] = v`), `eraseKV` removes the key
  (`m.erase(k)`).  `std::map` iterates in key order while the association
  list keeps insertion order; no claim depends on iteration order, only on
  the set of entries, so this difference is immaterial.
* `hr_clock::time_point` is a natural number counting microseconds; the
  clock reading `hr_clock::now()` becomes an explicit `now` argument of
  each operation, and `duration_cast<microseconds>(now - start).count()`
  becomes `now - start` (the clock is monotone, so the truncated `Nat`
  subtraction agrees with the C++ value).
* `double` is modelled as `ℚ` (exact arithmetic); the spec's statistical
  claims are stated "up to floating-point rounding order", which exact
  rationals realise.
* `omp_get_thread_num()` becomes an explicit `ctx` argument; the OpenMP
  critical sections serialise the operations, so an execution is a
  sequence of atomic `tic`/`toc`/`aggregate`/`reset` steps (an
  interleaving) acting on one state.
* `warn` (from chameleon.h) is an injected diagnostic: each operation
  returns the list of messages it emits, in order.
* The inner loop of `aggregate` reads `durations[j]` for `j` below
  `tags.size()`; the embedding pairs the two vectors with `List.zip`,
  which coincides with the source whenever the two vectors have equal
  length (the invariant proved below).
-/

/-- `keypair` from the source: a tag together with the OpenMP thread
number (`std::pair<std::string, unsigned int>`). -/
abbrev KeyPair := String × Nat

/-- One entry of the protected `data` map: mean, M2
(sum of squared deviations) and count, i.e. the
`std::tuple<double, double, unsigned long int>` of the source. -/
abbrev Stat := ℚ × ℚ × Nat

/-- Lookup in an association list modelling `std::map::find`. -/
def lookupKV {κ α : Type} [DecidableEq κ] : List (κ × α) → κ → Option α
  | [], _ => none
  | (k', v) :: rest, k => if k' = k then some v else lookupKV rest k

/-- Insert-or-overwrite, modelling `m[k] = v` on `std::map`. -/
def insertKV {κ α : Type} [DecidableEq κ] : List (κ × α) → κ → α → List (κ × α)
  | [], k, v => [(k, v)]
  | (k', v') :: rest, k, v =>
      if k' = k then (k, v) :: rest else (k', v') :: insertKV rest k v

/-- Key removal, modelling `m.erase(k)` on `std::map`. -/
def eraseKV {κ α : Type} [DecidableEq κ] : List (κ × α) → κ → List (κ × α)
  | [], _ => []
  | (k', v') :: rest, k => if k' = k then rest else (k', v') :: eraseKV rest k

/-- An association list whose keys are pairwise distinct — the state
invariant `std::map` maintains by construction. -/
abbrev NodupKeys {κ α : Type} (l : List (κ × α)) : Prop :=
  l.Pairwise (fun p q => p.1 ≠ q.1)

/-- The state of one `CppTimer` object: the private members `tics`,
`tags`, `durations`, the protected member `data`, and the public
configuration members `name` and `verbose`. -/
structure CppTimer where
  tics : List (KeyPair × Nat)
  tags : List String
  durations : List Nat
  data : List (String × Stat)
  name : String
  verbose : Bool

/-- The state built by the constructors: all four containers empty, with
the given `name` (default `"times"`) and `verbose` (default `true`). -/
def CppTimer.init (nm : String) (vb : Bool) : CppTimer :=
  { tics := [], tags := [], durations := [], data := [], name := nm, verbose := vb }

/-- The diagnostic text `toc` builds when the timer was never started. -/
def notStartedMsg (tag : String) : String :=
  "Timer \"" ++ tag ++ "\" not started yet. \n" ++
    "Use tic(\"" ++ tag ++ "\") to start the timer."

/-- The diagnostic text `aggregate` builds for a still-running timer. -/
def notStoppedMsg (tag : String) : String :=
  "Timer \"" ++ tag ++ "\" not stopped yet. \n" ++
    "Use toc(\"" ++ tag ++ "\") to stop the timer."

/-- `CppTimer::tic`: store the current clock reading under
`(tag, thread number)`, overwriting any previous entry. -/
def CppTimer.tic (s : CppTimer) (tag : String) (ctx : Nat) (now : Nat) : CppTimer :=
  { s with tics := insertKV s.tics (tag, ctx) now }

/-- `CppTimer::toc`: look the key up; if absent, warn (when `verbose`)
and do nothing else; if present, append the elapsed time to `durations`,
erase the key from `tics` and append the tag to `tags`.  The returned
list holds the diagnostics emitted by the call. -/
def CppTimer.toc (s : CppTimer) (tag : String) (ctx : Nat) (now : Nat) :
    CppTimer × List String :=
  match lookupKV s.tics (tag, ctx) with
  | none => (s, if s.verbose then [notStartedMsg tag] else [])
  | some start =>
      ({ s with
          durations := s.durations ++ [now - start],
          tics := eraseKV s.tics (tag, ctx),
          tags := s.tags ++ [tag] }, [])

/-- One step of Welford's online algorithm, exactly the update in the
inner loop of `aggregate`: `count++; delta = x - mean;
mean += delta / count; M2 += delta * (x - mean)`. -/
def welfordStep (acc : Stat) (sample : ℚ) : Stat :=
  let count := acc.2.2 + 1
  let delta := sample - acc.1
  let mean := acc.1 + delta / (count : ℚ)
  let m2 := acc.2.1 + delta * (sample - mean)
  (mean, m2, count)

/-- Folding Welford's update over a batch of samples in order. -/
def welfordFold (init : Stat) (samples : List ℚ) : Stat :=
  samples.foldl welfordStep init

/-- The samples the inner loop of `aggregate` visits for one tag: the
durations at the positions `j` with `tags[j] == tag`, in log order. -/
def samplesFor (log : List (String × Nat)) (tag : String) : List ℚ :=
  (log.filter fun p => decide (p.1 = tag)).map fun p => (p.2 : ℚ)

/-- The seed of the fold for one tag: the existing `data` entry, or
`(0, 0, 0)` when `data.count(tag) == 0`. -/
def seedStat (data : List (String × Stat)) (tag : String) : Stat :=
  (lookupKV data tag).getD (0, 0, 0)

/-- The `// Update` block of `aggregate` for one tag: Welford's fold over
that tag's samples, seeded from the current `data` map. -/
def aggregateTag (data : List (String × Stat)) (log : List (String × Nat))
    (tag : String) : Stat :=
  welfordFold (seedStat data tag) (samplesFor log tag)

/-- `std::sort` on the copied tag vector. -/
def sortTags (l : List String) : List String :=
  List.insertionSort (· ≤ ·) l

/-- `std::unique` followed by `erase`: drop adjacent duplicates. -/
def dedupAdjacent : List String → List String
  | [] => []
  | [a] => [a]
  | a :: b :: rest =>
      if a = b then dedupAdjacent (b :: rest) else a :: dedupAdjacent (b :: rest)

/-- `CppTimer::aggregate`: warn (when `verbose`) about every entry still
in `tics`; build the sorted deduplicated tag list; for each unique tag
fold the matching durations into `data` with Welford's algorithm, seeded
from the existing entry; finally clear `tags` and `durations`.  Returns
the new state and the diagnostics emitted. -/
def CppTimer.aggregate (s : CppTimer) : CppTimer × List String :=
  let warns := if s.verbose then s.tics.map (fun p => notStoppedMsg p.1.1) else []
  let uniqueTags := dedupAdjacent (sortTags s.tags)
  let log := s.tags.zip s.durations
  let data' := uniqueTags.foldl (fun d tag => insertKV d tag (aggregateTag d log tag)) s.data
  ({ s with tags := [], durations := [], data := data' }, warns)

/-- `CppTimer::reset`: clear `tics`, `durations`, `tags` and `data`;
`name` and `verbose` are untouched. -/
def CppTimer.reset (s : CppTimer) : CppTimer :=
  { s with tics := [], durations := [], tags := [], data := [] }

/-- The default value of the `tag` member of `CppTimer::ScopedTimer`
(`std::string tag = "ScopedTimer";`). -/
def scopedTimerDefaultTag : String := "ScopedTimer"

/-- The net effect of a `CppTimer::ScopedTimer` life cycle: the
constructor calls `clock.tic(tag)` at time `tStart` and the destructor —
run on every exit path of the scope — calls `clock.toc(tag)` at time
`tEnd`. -/
def scopedTimer (s : CppTimer) (tag : String) (ctx : Nat) (tStart tEnd : Nat) :
    CppTimer × List String :=
  CppTimer.toc (CppTimer.tic s tag ctx tStart) tag ctx tEnd

/-- Modelled from the spec: an explicit `start(tag)` immediately paired
with a `stop(tag)` in the same execution context, the behaviour the spec
says a scoped interval must refine. -/
def ticTocPair (s : CppTimer) (tag : String) (ctx : Nat) (tStart tEnd : Nat) :
    CppTimer × List String :=
  CppTimer.toc (CppTimer.tic s tag ctx tStart) tag ctx tEnd

/-- The atomic operations a client can perform on a `CppTimer`, each
carrying the clock reading and thread number it executes with. -/
inductive Op : Type
  | tic (tag : String) (ctx : Nat) (now : Nat)
  | toc (tag : String) (ctx : Nat) (now : Nat)
  | aggregate
  | reset

/-- Execute one operation, returning the new state and the diagnostics
it emitted. -/
def runOp (s : CppTimer) : Op → CppTimer × List String
  | Op.tic tag ctx now => (s.tic tag ctx now, [])
  | Op.toc tag ctx now => s.toc tag ctx now
  | Op.aggregate => s.aggregate
  | Op.reset => (s.reset, [])

/-- Execute a sequence of operations, concatenating the diagnostics. -/
def run (s : CppTimer) : List Op → CppTimer × List String
  | [] => (s, [])
  | op :: rest =>
      let r := runOp s op
      let r' := run r.1 rest
      (r'.1, r.2 ++ r'.2)

/-- The count recorded for a tag in the `data` map, `0` when absent. -/
def countOf (data : List (String × Stat)) (tag : String) : Nat :=
  match lookupKV data tag with
  | none => 0
  | some v => v.2.2

/-- Checker for the spec's concurrent scenario: every operation is a
`tic` or `toc` of tag `"job"`, every `tic` uses a context id not used
before, every `toc` matches a pending `tic` of its context, and at the
end no interval is pending.  `pend` mirrors the `tics` map, `used` the
context ids seen so far. -/
def jobRunOk (used : List Nat) (pend : List (KeyPair × Nat)) : List Op → Bool
  | [] => pend.isEmpty
  | Op.tic tag i t :: rest =>
      tag == "job" && !(used.contains i) &&
        jobRunOk (i :: used) (insertKV pend (tag, i) t) rest
  | Op.toc tag i _ :: rest =>
      tag == "job" && (lookupKV pend (tag, i)).isSome &&
        jobRunOk used (eraseKV pend (tag, i)) rest
  | Op.aggregate :: _ => false
  | Op.reset :: _ => false

/-- Number of `tic` operations in a sequence (the `N` of the spec's
concurrent scenario). -/
def numTics : List Op → Nat
  | [] => 0
  | Op.tic _ _ _ :: rest => numTics rest + 1
  | _ :: rest => numTics rest

/-- Number of `toc` operations in a sequence. -/
def numTocs : List Op → Nat
  | [] => 0
  | Op.toc _ _ _ :: rest => numTocs rest + 1
  | _ :: rest => numTocs rest

/-! ### Concrete states for instantiating the theorems -/

/-- A small concrete timer state with two running timers, three logged
durations and one existing statistic. -/
def sampleTimer : CppTimer :=
  { tics := [(("a", 0), 5), (("b", 1), 7)],
    tags := ["x", "y", "x"],
    durations := [3, 10, 5],
    data := [("z", (4, 0, 2))],
    name := "times",
    verbose := true }

/-! ### Association-list lemmas -/

theorem lookupKV_insertKV_self {κ α : Type} [DecidableEq κ]
    (l : List (κ × α)) (k : κ) (v : α) :
    lookupKV (insertKV l k v) k = some v := by
  induction l with
  | nil => simp [insertKV, lookupKV]
  | cons p rest ih =>
      by_cases h : p.1 = k
      · simp [insertKV, lookupKV, h]
      · simp [insertKV, lookupKV, h, ih]

theorem lookupKV_insertKV_ne {κ α : Type} [DecidableEq κ]
    (l : List (κ × α)) (k k' : κ) (v : α) (h : k' ≠ k) :
    lookupKV (insertKV l k' v) k = lookupKV l k := by
  induction l with
  | nil => simp [insertKV, lookupKV, h]
  | cons p rest ih =>
      by_cases hp : p.1 = k'
      · simp [insertKV, lookupKV, hp, h]
      · simp [insertKV, lookupKV, hp, ih]

theorem lookupKV_eraseKV_ne {κ α : Type} [DecidableEq κ]
    (l : List (κ × α)) (k k' : κ) (h : k' ≠ k) :
    lookupKV (eraseKV l k') k = lookupKV l k := by
  induction l with
  | nil => simp [eraseKV]
  | cons p rest ih =>
      by_cases hp : p.1 = k'
      · simp [eraseKV, lookupKV, hp, h]
      · simp [eraseKV, lookupKV, hp, ih]

theorem lookupKV_eq_none {κ α : Type} [DecidableEq κ]
    (l : List (κ × α)) (k : κ) (h : ∀ p ∈ l, p.1 ≠ k) :
    lookupKV l k = none := by
  induction l with
  | nil => rfl
  | cons p rest ih =>
      have hp := h p (List.mem_cons_self p rest)
      simp only [lookupKV, if_neg hp]
      exact ih fun q hq => h q (List.mem_cons_of_mem p hq)

theorem lookupKV_eraseKV_self {κ α : Type} [DecidableEq κ]
    (l : List (κ × α)) (k : κ) (hnd : NodupKeys l) :
    lookupKV (eraseKV l k) k = none := by
  induction l with
  | nil => simp [eraseKV, lookupKV]
  | cons p rest ih =>
      rcases List.pairwise_cons.mp hnd with ⟨hhead, htail⟩
      by_cases hp : p.1 = k
      · simp only [eraseKV, if_pos hp]
        refine lookupKV_eq_none rest k fun q hq => ?_
        rw [← hp]
        exact (hhead q hq).symm
      · simp only [eraseKV, if_neg hp, lookupKV, if_neg hp]
        exact ih htail

theorem eraseKV_insertKV_of_absent {κ α : Type} [DecidableEq κ]
    (l : List (κ × α)) (k : κ) (v : α) (h : lookupKV l k = none) :
    eraseKV (insertKV l k v) k = l := by
  induction l with
  | nil => simp [insertKV, eraseKV]
  | cons p rest ih =>
      by_cases hp : p.1 = k
      · simp [lookupKV, hp] at h
      · simp only [lookupKV, if_neg hp] at h
        simp [insertKV, eraseKV, hp, ih h]

/-! ### Claims about `toc`, `aggregate` frame effects, `tic`/`toc`
lifecycle, diagnostics and `ScopedTimer` -/

/-- Claim C2: when `(tag, ctx)` has no entry in `tics`, `toc` emits the
not-started diagnostic naming the tag exactly when `verbose` is set, and
has no other effect: the whole state — `tics`, the duration log and the
`data` table — is returned unchanged. -/
theorem toc_notStarted_noop (s : CppTimer) (tag : String) (ctx now : Nat)
    (h : lookupKV s.tics (tag, ctx) = none) :
    (s.toc tag ctx now).1 = s ∧
    (s.toc tag ctx now).2 = if s.verbose then [notStartedMsg tag] else [] := by
  simp [CppTimer.toc, h]

/-- Witness for C2 at a concrete state and tag. -/
theorem toc_notStarted_noop_witness :
    lookupKV sampleTimer.tics ("zzz", 0) = none ∧
    (sampleTimer.toc "zzz" 0 9).1 = sampleTimer ∧
    (sampleTimer.toc "zzz" 0 9).2 =
      if sampleTimer.verbose then [notStartedMsg "zzz"] else [] := by
  have h := toc_notStarted_noop sampleTimer "zzz" 0 9 (by decide)
  exact ⟨by decide, h.1, h.2⟩

/-- Claim C3: `aggregate` clears `tags` and `durations` completely but
leaves `tics` untouched (every open interval survives with its start
timestamp), and a second `aggregate` re-emits exactly the same
still-running diagnostics. -/
theorem aggregate_clears_log_keeps_tics (s : CppTimer) :
    s.aggregate.1.tags = [] ∧
    s.aggregate.1.durations = [] ∧
    s.aggregate.1.tics = s.tics ∧
    s.aggregate.1.aggregate.2 = s.aggregate.2 :=
  ⟨rfl, rfl, rfl, rfl⟩

/-- Claim C5: `tic` always succeeds and records `now` under the key,
overwriting any previous start for that exact key and touching no other
key; a successful `toc` removes exactly that key from `tics`. -/
theorem tic_toc_key_lifecycle (s : CppTimer) (tag : String) (ctx now : Nat) :
    lookupKV (s.tic tag ctx now).tics (tag, ctx) = some now ∧
    (∀ k : KeyPair, k ≠ (tag, ctx) →
       lookupKV (s.tic tag ctx now).tics k = lookupKV s.tics k) ∧
    (NodupKeys s.tics → lookupKV s.tics (tag, ctx) ≠ none →
       lookupKV (s.toc tag ctx now).1.tics (tag, ctx) = none) ∧
    (∀ k : KeyPair, k ≠ (tag, ctx) →
       lookupKV (s.toc tag ctx now).1.tics k = lookupKV s.tics k) := by
  refine ⟨lookupKV_insertKV_self _ _ _, ?_, ?_, ?_⟩
  · intro k hk
    exact lookupKV_insertKV_ne s.tics k (tag, ctx) now (Ne.symm hk)
  · intro hnd hsome
    cases hlk : lookupKV s.tics (tag, ctx) with
    | none => exact absurd hlk hsome
    | some st =>
        simp only [CppTimer.toc, hlk]
        exact lookupKV_eraseKV_self _ _ hnd
  · intro k hk
    cases hlk : lookupKV s.tics (tag, ctx) with
    | none => simp [CppTimer.toc, hlk]
    | some st =>
        simp only [CppTimer.toc, hlk]
        exact lookupKV_eraseKV_ne s.tics k (tag, ctx) (Ne.symm hk)

/-- Witness for C5 at a concrete state, key and second key. -/
theorem tic_toc_key_lifecycle_witness :
    lookupKV (sampleTimer.tic "a" 0 9).tics ("a", 0) = some 9 ∧
    lookupKV (sampleTimer.tic "a" 0 9).tics ("b", 1) = lookupKV sampleTimer.tics ("b", 1) ∧
    lookupKV (sampleTimer.toc "a" 0 9).1.tics ("a", 0) = none ∧
    lookupKV (sampleTimer.toc "a" 0 9).1.tics ("b", 1) = lookupKV sampleTimer.tics ("b", 1) := by
  have h := tic_toc_key_lifecycle sampleTimer "a" 0 9
  exact ⟨h.1, h.2.1 ("b", 1) (by decide), h.2.2.1 (by decide) (by decide),
    h.2.2.2 ("b", 1) (by decide)⟩

/-- Claim C6: the not-started diagnostic of `toc` and the still-running
diagnostics of `aggregate` are each emitted, naming the offending tag,
exactly when `verbose` is set; neither path fails, and the statistics an
`aggregate` computes are the same whether or not intervals are open. -/
theorem diagnostics_gated_by_verbose (s : CppTimer) (tag : String) (ctx now : Nat)
    (h : lookupKV s.tics (tag, ctx) = none) :
    (s.toc tag ctx now).2 = (if s.verbose then [notStartedMsg tag] else []) ∧
    s.aggregate.2 = (if s.verbose then s.tics.map fun p => notStoppedMsg p.1.1 else []) ∧
    s.aggregate.1.data = (CppTimer.aggregate { s with tics := [] }).1.data := by
  refine ⟨?_, rfl, rfl⟩
  simp [CppTimer.toc, h]

/-- Witness for C6 at a concrete state and tag. -/
theorem diagnostics_gated_by_verbose_witness :
    lookupKV sampleTimer.tics ("zzz", 3) = none ∧
    (sampleTimer.toc "zzz" 3 9).2 =
      (if sampleTimer.verbose then [notStartedMsg "zzz"] else []) ∧
    sampleTimer.aggregate.2 =
      (if sampleTimer.verbose then sampleTimer.tics.map fun p => notStoppedMsg p.1.1 else []) ∧
    sampleTimer.aggregate.1.data =
      (CppTimer.aggregate { sampleTimer with tics := [] }).1.data := by
  have h := diagnostics_gated_by_verbose sampleTimer "zzz" 3 9 (by decide)
  exact ⟨by decide, h.1, h.2.1, h.2.2⟩

/-- Claim C7: a scoped timer on `tag` is, for timing purposes, exactly
the explicit `tic`/`toc` pair in the same context: it closes exactly one
interval — one new entry in `tags` and one matching elapsed time in
`durations` — emits no diagnostic, and restores `tics` whenever the key
was not already running. -/
theorem scopedTimer_refines (s : CppTimer) (tag : String) (ctx tStart tEnd : Nat) :
    scopedTimer s tag ctx tStart tEnd = ticTocPair s tag ctx tStart tEnd ∧
    (scopedTimer s tag ctx tStart tEnd).1.tags = s.tags ++ [tag] ∧
    (scopedTimer s tag ctx tStart tEnd).1.durations = s.durations ++ [tEnd - tStart] ∧
    (scopedTimer s tag ctx tStart tEnd).2 = [] ∧
    (lookupKV s.tics (tag, ctx) = none →
       (scopedTimer s tag ctx tStart tEnd).1.tics = s.tics) := by
  refine ⟨rfl, ?_, ?_, ?_, fun h => ?_⟩ <;>
    simp only [scopedTimer, CppTimer.tic, CppTimer.toc, lookupKV_insertKV_self]
  exact eraseKV_insertKV_of_absent s.tics (tag, ctx) tStart h

/-- Witness for C7 at a concrete state, tag and clock readings. -/
theorem scopedTimer_refines_witness :
    scopedTimer sampleTimer "y" 2 4 9 = ticTocPair sampleTimer "y" 2 4 9 ∧
    (scopedTimer sampleTimer "y" 2 4 9).1.tags = sampleTimer.tags ++ ["y"] ∧
    (scopedTimer sampleTimer "y" 2 4 9).1.durations = sampleTimer.durations ++ [9 - 4] ∧
    (scopedTimer sampleTimer "y" 2 4 9).2 = [] ∧
    (scopedTimer sampleTimer "y" 2 4 9).1.tics = sampleTimer.tics := by
  have h := scopedTimer_refines sampleTimer "y" 2 4 9
  exact ⟨h.1, h.2.1, h.2.2.1, h.2.2.2.1, h.2.2.2.2 (by decide)⟩

/-- Claim C8 (code bug in the source): the nested class fixes the member
initializer `tag = "ScopedTimer"`, the default the spec promises, but its
only constructor takes the tag explicitly and always overwrites it, so a
scoped timer invariably uses the constructor argument. -/
theorem scopedTimer_defaultTag_dead (s : CppTimer) (tag : String) (ctx t1 t2 : Nat) :
    scopedTimerDefaultTag = "ScopedTimer" ∧
    (scopedTimer s tag ctx t1 t2).1.tags = s.tags ++ [tag] := by
  refine ⟨rfl, ?_⟩
  simp only [scopedTimer, CppTimer.tic, CppTimer.toc, lookupKV_insertKV_self]

/-! ### Sorting and deduplication lemmas for `aggregate` -/

theorem mem_dedupAdjacent (l : List String) (x : String) :
    x ∈ dedupAdjacent l ↔ x ∈ l := by
  induction l with
  | nil => simp [dedupAdjacent]
  | cons a rest ih =>
      cases rest with
      | nil => simp [dedupAdjacent]
      | cons b rest' =>
          simp only [dedupAdjacent]
          by_cases hab : a = b
          · rw [if_pos hab]
            subst hab
            rw [ih]
            simp only [List.mem_cons]
            tauto
          · rw [if_neg hab]
            simp only [List.mem_cons, ih]

theorem sorted_lt_dedupAdjacent :
    ∀ l : List String, l.Sorted (· ≤ ·) → (dedupAdjacent l).Sorted (· < ·)
  | [], _ => by simp [dedupAdjacent]
  | [a], _ => by simp [dedupAdjacent]
  | a :: b :: rest, h => by
      have htail : (b :: rest).Sorted (· ≤ ·) := h.of_cons
      by_cases hab : a = b
      · simpa [dedupAdjacent, if_pos hab] using sorted_lt_dedupAdjacent (b :: rest) htail
      · simp only [dedupAdjacent, if_neg hab]
        refine List.pairwise_cons.mpr ⟨?_, sorted_lt_dedupAdjacent (b :: rest) htail⟩
        intro y hy
        have hyb : y ∈ b :: rest := (mem_dedupAdjacent _ y).mp hy
        have hab' : a ≤ b := List.rel_of_sorted_cons h b (List.mem_cons_self b rest)
        have haltb : a < b := lt_of_le_of_ne hab' hab
        rcases List.mem_cons.mp hyb with h1 | h2
        · exact h1 ▸ haltb
        · exact lt_of_lt_of_le haltb (List.rel_of_sorted_cons htail y h2)

theorem mem_uniqueTags (l : List String) (x : String) :
    x ∈ dedupAdjacent (sortTags l) ↔ x ∈ l := by
  rw [mem_dedupAdjacent]
  exact (List.perm_insertionSort _ l).mem_iff

theorem nodup_uniqueTags (l : List String) : (dedupAdjacent (sortTags l)).Nodup :=
  (sorted_lt_dedupAdjacent _ (List.sorted_insertionSort _ l)).nodup

/-! ### The lookup characterisation of `aggregate` -/

theorem lookup_foldAgg (log : List (String × Nat)) (uts : List String) :
    ∀ d d0 : List (String × Stat),
      uts.Nodup →
      (∀ t ∈ uts, lookupKV d t = lookupKV d0 t) →
      ∀ t : String,
        lookupKV (uts.foldl (fun d' tag => insertKV d' tag (aggregateTag d' log tag)) d) t =
          if t ∈ uts then some (welfordFold (seedStat d0 t) (samplesFor log t))
          else lookupKV d t := by
  induction uts with
  | nil => intro d d0 _ _ t; simp
  | cons u us ih =>
      intro d d0 hnd hagree t
      rcases List.nodup_cons.mp hnd with ⟨hu, hus⟩
      have hseed : seedStat d u = seedStat d0 u := by
        unfold seedStat
        rw [hagree u (List.mem_cons_self u us)]
      simp only [List.foldl_cons]
      have hagree1 : ∀ t' ∈ us,
          lookupKV (insertKV d u (aggregateTag d log u)) t' = lookupKV d0 t' := by
        intro t' ht'
        have htu : u ≠ t' := fun he => hu (he ▸ ht')
        rw [lookupKV_insertKV_ne d t' u _ htu]
        exact hagree t' (List.mem_cons_of_mem u ht')
      rw [ih (insertKV d u (aggregateTag d log u)) d0 hus hagree1 t]
      by_cases htus : t ∈ us
      · rw [if_pos htus, if_pos (List.mem_cons_of_mem u htus)]
      · by_cases htu : t = u
        · subst htu
          rw [if_neg htus, if_pos (List.mem_cons_self t us)]
          rw [lookupKV_insertKV_self]
          unfold aggregateTag at *
          rw [hseed]
        · have hnotin : t ∉ u :: us := by
            intro hm
            rcases List.mem_cons.mp hm with h1 | h2
            · exact htu h1
            · exact htus h2
          rw [if_neg htus, if_neg hnotin]
          exact lookupKV_insertKV_ne d t u _ (fun he => htu he.symm)

theorem lookup_aggregate (s : CppTimer) (t : String) :
    lookupKV s.aggregate.1.data t =
      if t ∈ s.tags
      then some (welfordFold (seedStat s.data t)
        (samplesFor (s.tags.zip s.durations) t))
      else lookupKV s.data t := by
  have hdata : s.aggregate.1.data =
      (dedupAdjacent (sortTags s.tags)).foldl
        (fun d tag => insertKV d tag (aggregateTag d (s.tags.zip s.durations) tag))
        s.data := rfl
  rw [hdata, lookup_foldAgg (s.tags.zip s.durations) (dedupAdjacent (sortTags s.tags))
    s.data s.data (nodup_uniqueTags s.tags) (fun _ _ => rfl) t]
  by_cases hm : t ∈ s.tags
  · rw [if_pos ((mem_uniqueTags s.tags t).mpr hm), if_pos hm]
  · rw [if_neg (fun hc => hm ((mem_uniqueTags s.tags t).mp hc)), if_neg hm]

/-! ### Batch-splitting lemmas -/

theorem welfordFold_append (init : Stat) (xs ys : List ℚ) :
    welfordFold init (xs ++ ys) = welfordFold (welfordFold init xs) ys := by
  simp [welfordFold, List.foldl_append]

theorem samplesFor_append (l1 l2 : List (String × Nat)) (t : String) :
    samplesFor (l1 ++ l2) t = samplesFor l1 t ++ samplesFor l2 t := by
  simp [samplesFor, List.filter_append]

theorem samplesFor_zip_nil_of_not_mem (tags : List String) (durs : List Nat)
    (t : String) (h : t ∉ tags) : samplesFor (tags.zip durs) t = [] := by
  unfold samplesFor
  have hfil : (tags.zip durs).filter (fun p => decide (p.1 = t)) = [] := by
    apply List.filter_eq_nil_iff.mpr
    intro p hp
    obtain ⟨a, b⟩ := p
    have hmem := (List.of_mem_zip hp).1
    simp only [decide_eq_true_eq]
    intro he
    exact h (he ▸ hmem)
  rw [hfil, List.map_nil]

/-- Claim C1: with every tag's existing statistic seeding the Welford
fold, one `aggregate` over a whole batch yields, for every tag, the same
`(mean, M2, count)` as aggregating two consecutive sub-batches (the split
preserving log order) one `aggregate` at a time; in exact arithmetic the
two are equal outright. -/
theorem aggregate_merge_split (s : CppTimer) (t1 t2 : List String) (d1 d2 : List Nat)
    (tag : String)
    (h1 : t1.length = d1.length) (_h2 : t2.length = d2.length)
    (hs : s.tags = t1 ++ t2) (hd : s.durations = d1 ++ d2) :
    lookupKV s.aggregate.1.data tag =
      lookupKV (CppTimer.aggregate
        { (CppTimer.aggregate { s with tags := t1, durations := d1 }).1 with
          tags := t2, durations := d2 }).1.data tag ∧
    (tag ∈ s.tags →
      lookupKV s.aggregate.1.data tag =
        some (welfordFold (seedStat s.data tag)
          (samplesFor (s.tags.zip s.durations) tag))) := by
  refine ⟨?_, fun hm => by rw [lookup_aggregate s tag, if_pos hm]⟩
  have hzip : s.tags.zip s.durations = t1.zip d1 ++ t2.zip d2 := by
    rw [hs, hd]
    exact List.zip_append h1
  have hA' : lookupKV (CppTimer.aggregate { s with tags := t1, durations := d1 }).1.data tag =
      if tag ∈ t1
      then some (welfordFold (seedStat s.data tag) (samplesFor (t1.zip d1) tag))
      else lookupKV s.data tag :=
    lookup_aggregate { s with tags := t1, durations := d1 } tag
  have hB' : lookupKV (CppTimer.aggregate
        { (CppTimer.aggregate { s with tags := t1, durations := d1 }).1 with
          tags := t2, durations := d2 }).1.data tag =
      if tag ∈ t2
      then some (welfordFold
        (seedStat (CppTimer.aggregate { s with tags := t1, durations := d1 }).1.data tag)
        (samplesFor (t2.zip d2) tag))
      else lookupKV (CppTimer.aggregate { s with tags := t1, durations := d1 }).1.data tag :=
    lookup_aggregate _ tag
  have hS : lookupKV s.aggregate.1.data tag =
      if tag ∈ t1 ++ t2
      then some (welfordFold (seedStat s.data tag)
        (samplesFor (t1.zip d1) tag ++ samplesFor (t2.zip d2) tag))
      else lookupKV s.data tag := by
    rw [lookup_aggregate s tag, hzip, samplesFor_append, hs]
  rw [hS, hB']
  by_cases hm1 : tag ∈ t1 <;> by_cases hm2 : tag ∈ t2
  · rw [if_pos (List.mem_append.mpr (Or.inl hm1)), if_pos hm2]
    have hseed : seedStat (CppTimer.aggregate { s with tags := t1, durations := d1 }).1.data tag =
        welfordFold (seedStat s.data tag) (samplesFor (t1.zip d1) tag) := by
      unfold seedStat
      rw [hA', if_pos hm1]
      rfl
    rw [hseed, welfordFold_append]
  · rw [if_pos (List.mem_append.mpr (Or.inl hm1)), if_neg hm2, hA', if_pos hm1,
      samplesFor_zip_nil_of_not_mem t2 d2 tag hm2, List.append_nil]
  · rw [if_pos (List.mem_append.mpr (Or.inr hm2)), if_pos hm2,
      samplesFor_zip_nil_of_not_mem t1 d1 tag hm1, List.nil_append]
    have hseed : seedStat (CppTimer.aggregate { s with tags := t1, durations := d1 }).1.data tag =
        seedStat s.data tag := by
      unfold seedStat
      rw [hA', if_neg hm1]
    rw [hseed]
  · have hnm : tag ∉ t1 ++ t2 := by
      intro hm
      rcases List.mem_append.mp hm with h | h
      · exact hm1 h
      · exact hm2 h
    rw [if_neg hnm, if_neg hm2, hA', if_neg hm1]

/-- Witness for C1: the batch `x ↦ 3, y ↦ 10, x ↦ 5` on a state with an
existing statistic, split after its first sample. -/
theorem aggregate_merge_split_witness :
    (["x"] : List String).length = ([3] : List Nat).length ∧
    (["y", "x"] : List String).length = ([10, 5] : List Nat).length ∧
    sampleTimer.tags = ["x"] ++ ["y", "x"] ∧
    sampleTimer.durations = [3] ++ [10, 5] ∧
    lookupKV sampleTimer.aggregate.1.data "x" =
      lookupKV (CppTimer.aggregate
        { (CppTimer.aggregate { sampleTimer with tags := ["x"], durations := [3] }).1 with
          tags := ["y", "x"], durations := [10, 5] }).1.data "x" ∧
    "x" ∈ sampleTimer.tags ∧
    lookupKV sampleTimer.aggregate.1.data "x" =
      some (welfordFold (seedStat sampleTimer.data "x")
        (samplesFor (sampleTimer.tags.zip sampleTimer.durations) "x")) := by
  have h := aggregate_merge_split sampleTimer ["x"] ["y", "x"] [3] [10, 5] "x"
    (by decide) (by decide) (by decide) (by decide)
  exact ⟨by decide, by decide, by decide, by decide, h.1, by decide, h.2 (by decide)⟩

/-- Claim C4: an `aggregate` on an empty duration log returns the `data`
table structurally unchanged, and any tag without samples in the drained
batch keeps its exact statistic. -/
theorem aggregate_empty_batch_frame (s : CppTimer) (tag : String) :
    (s.tags = [] → s.durations = [] → s.aggregate.1.data = s.data) ∧
    (tag ∉ s.tags → lookupKV s.aggregate.1.data tag = lookupKV s.data tag) := by
  constructor
  · intro ht _hd
    have hdata : s.aggregate.1.data =
        (dedupAdjacent (sortTags s.tags)).foldl
          (fun d tg => insertKV d tg (aggregateTag d (s.tags.zip s.durations) tg))
          s.data := rfl
    rw [hdata, ht]
    rfl
  · intro hm
    rw [lookup_aggregate s tag, if_neg hm]

/-- Witness for C4 at a concrete empty-log state and a concrete absent
tag. -/
theorem aggregate_empty_batch_frame_witness :
    ({ sampleTimer with tags := [], durations := [] } : CppTimer).tags = [] ∧
    ({ sampleTimer with tags := [], durations := [] } : CppTimer).durations = [] ∧
    (CppTimer.aggregate { sampleTimer with tags := [], durations := [] }).1.data =
      ({ sampleTimer with tags := [], durations := [] } : CppTimer).data ∧
    "q" ∉ sampleTimer.tags ∧
    lookupKV sampleTimer.aggregate.1.data "q" = lookupKV sampleTimer.data "q" := by
  refine ⟨rfl, rfl, ?_, by decide, ?_⟩
  · exact (aggregate_empty_batch_frame { sampleTimer with tags := [], durations := [] } "q").1
      rfl rfl
  · exact (aggregate_empty_batch_frame sampleTimer "q").2 (by decide)

/-! ### Length and membership lemmas for the tracker -/

theorem length_insertKV_of_absent {κ α : Type} [DecidableEq κ]
    (l : List (κ × α)) (k : κ) (v : α) (h : lookupKV l k = none) :
    (insertKV l k v).length = l.length + 1 := by
  induction l with
  | nil => simp [insertKV]
  | cons p rest ih =>
      by_cases hp : p.1 = k
      · simp [lookupKV, hp] at h
      · simp only [lookupKV, if_neg hp] at h
        simp [insertKV, hp, ih h]

theorem length_eraseKV_of_present {κ α : Type} [DecidableEq κ]
    (l : List (κ × α)) (k : κ) (h : (lookupKV l k).isSome = true) :
    (eraseKV l k).length + 1 = l.length := by
  induction l with
  | nil => simp [lookupKV] at h
  | cons p rest ih =>
      by_cases hp : p.1 = k
      · simp [eraseKV, hp]
      · simp only [lookupKV, if_neg hp] at h
        simp [eraseKV, hp, ih h]

theorem mem_insertKV {κ α : Type} [DecidableEq κ]
    (l : List (κ × α)) (k : κ) (v : α) (p : κ × α) (h : p ∈ insertKV l k v) :
    p ∈ l ∨ p = (k, v) := by
  induction l with
  | nil => simp [insertKV] at h; exact Or.inr h
  | cons q rest ih =>
      by_cases hq : q.1 = k
      · simp only [insertKV, if_pos hq] at h
        rcases List.mem_cons.mp h with h1 | h2
        · exact Or.inr h1
        · exact Or.inl (List.mem_cons_of_mem q h2)
      · simp only [insertKV, if_neg hq] at h
        rcases List.mem_cons.mp h with h1 | h2
        · exact Or.inl (h1 ▸ List.mem_cons_self q rest)
        · rcases ih h2 with h3 | h4
          · exact Or.inl (List.mem_cons_of_mem q h3)
          · exact Or.inr h4

theorem mem_eraseKV {κ α : Type} [DecidableEq κ]
    (l : List (κ × α)) (k : κ) (p : κ × α) (h : p ∈ eraseKV l k) : p ∈ l := by
  induction l with
  | nil => simp [eraseKV] at h
  | cons q rest ih =>
      by_cases hq : q.1 = k
      · simp only [eraseKV, if_pos hq] at h
        exact List.mem_cons_of_mem q h
      · simp only [eraseKV, if_neg hq] at h
        rcases List.mem_cons.mp h with h1 | h2
        · exact h1 ▸ List.mem_cons_self q rest
        · exact List.mem_cons_of_mem q (ih h2)

/-! ### Welford count and sample-length lemmas -/

theorem welfordFold_count (samples : List ℚ) :
    ∀ init : Stat, (welfordFold init samples).2.2 = init.2.2 + samples.length := by
  induction samples with
  | nil => intro init; simp [welfordFold]
  | cons x xs ih =>
      intro init
      have hstep : welfordFold init (x :: xs) = welfordFold (welfordStep init x) xs := rfl
      rw [hstep, ih]
      have hc : (welfordStep init x).2.2 = init.2.2 + 1 := rfl
      rw [hc, List.length_cons]
      omega

theorem samplesFor_replicate_length (n : Nat) (d : List Nat) (hd : d.length = n) :
    (samplesFor ((List.replicate n "job").zip d) "job").length = n := by
  unfold samplesFor
  have hall : ∀ p ∈ (List.replicate n "job").zip d, decide (p.1 = "job") = true := by
    intro p hp
    obtain ⟨a, b⟩ := p
    have hmem := (List.of_mem_zip hp).1
    have ha : a = "job" := List.eq_of_mem_replicate hmem
    simp [ha]
  rw [List.filter_eq_self.mpr hall, List.length_map, List.length_zip,
    List.length_replicate, hd]
  exact Nat.min_self n

/-! ### Length preservation along arbitrary runs -/

theorem runOp_len (s : CppTimer) (op : Op)
    (h : s.tags.length = s.durations.length) :
    (runOp s op).1.tags.length = (runOp s op).1.durations.length := by
  cases op with
  | tic tag ctx now => simpa [runOp, CppTimer.tic] using h
  | toc tag ctx now =>
      cases hlk : lookupKV s.tics (tag, ctx) with
      | none => simpa [runOp, CppTimer.toc, hlk] using h
      | some st => simp [runOp, CppTimer.toc, hlk, h]
  | aggregate => rfl
  | reset => rfl

theorem run_len (ops : List Op) : ∀ s : CppTimer,
    s.tags.length = s.durations.length →
    (run s ops).1.tags.length = (run s ops).1.durations.length := by
  induction ops with
  | nil => intro s h; exact h
  | cons op rest ih =>
      intro s h
      simp only [run]
      exact ih (runOp s op).1 (runOp_len s op h)

/-! ### The concurrent `tic`/`toc` scenario -/

theorem run_jobOps (ops : List Op) :
    ∀ (used : List Nat) (pend : List (KeyPair × Nat)) (s : CppTimer),
      jobRunOk used pend ops = true →
      s.tics = pend →
      (run s ops).2 = [] ∧
      (run s ops).1.tics = [] ∧
      (run s ops).1.tags = s.tags ++ List.replicate (numTocs ops) "job" ∧
      (run s ops).1.durations.length = s.durations.length + numTocs ops ∧
      (run s ops).1.data = s.data ∧
      (run s ops).1.verbose = s.verbose := by
  induction ops with
  | nil =>
      intro used pend s hok htics
      simp only [jobRunOk] at hok
      have hpend : pend = [] := by
        cases pend with
        | nil => rfl
        | cons p rest => simp [List.isEmpty] at hok
      refine ⟨rfl, ?_, by simp [run, numTocs], by simp [run, numTocs], rfl, rfl⟩
      show s.tics = []
      rw [htics, hpend]
  | cons op rest ih =>
      intro used pend s hok htics
      cases op with
      | tic tag i t =>
          simp only [jobRunOk, Bool.and_eq_true, beq_iff_eq] at hok
          obtain ⟨⟨htag, _hused⟩, hrest⟩ := hok
          have htics' : (s.tic tag i t).tics = insertKV pend (tag, i) t := by
            simp [CppTimer.tic, htics]
          obtain ⟨hw, ht, hg, hd, hda, hv⟩ :=
            ih (i :: used) (insertKV pend (tag, i) t) (s.tic tag i t) hrest htics'
          have hrun : run s (Op.tic tag i t :: rest) =
              ((run (s.tic tag i t) rest).1, [] ++ (run (s.tic tag i t) rest).2) := rfl
          rw [hrun]
          simp only [List.nil_append]
          refine ⟨hw, ht, ?_, ?_, hda, hv⟩
          · rw [hg]
            rfl
          · rw [hd]
            rfl
      | toc tag i t =>
          simp only [jobRunOk, Bool.and_eq_true, beq_iff_eq] at hok
          obtain ⟨⟨htag, hsome⟩, hrest⟩ := hok
          obtain ⟨st, hst⟩ := Option.isSome_iff_exists.mp hsome
          have hlk : lookupKV s.tics (tag, i) = some st := by rw [htics]; exact hst
          have htoc : (s.toc tag i t).1 =
              { s with
                  durations := s.durations ++ [t - st],
                  tics := eraseKV s.tics (tag, i),
                  tags := s.tags ++ [tag] } := by
            simp [CppTimer.toc, hlk]
          have htocw : (s.toc tag i t).2 = [] := by
            simp [CppTimer.toc, hlk]
          have htics' : (s.toc tag i t).1.tics = eraseKV pend (tag, i) := by
            rw [htoc]
            simp [htics]
          obtain ⟨hw, ht, hg, hd, hda, hv⟩ :=
            ih used (eraseKV pend (tag, i)) (s.toc tag i t).1 hrest htics'
          have hrun : run s (Op.toc tag i t :: rest) =
              ((run (s.toc tag i t).1 rest).1,
                (s.toc tag i t).2 ++ (run (s.toc tag i t).1 rest).2) := rfl
          rw [hrun, htocw]
          simp only [List.nil_append]
          subst htag
          have hgtags : (s.toc "job" i t).1.tags = s.tags ++ ["job"] := by rw [htoc]
          have hgdurs : (s.toc "job" i t).1.durations = s.durations ++ [t - st] := by
            rw [htoc]
          have hgdata : (s.toc "job" i t).1.data = s.data := by rw [htoc]
          have hgverb : (s.toc "job" i t).1.verbose = s.verbose := by rw [htoc]
          refine ⟨hw, ht, ?_, ?_, ?_, ?_⟩
          · rw [hg, hgtags]
            show (s.tags ++ ["job"]) ++ List.replicate (numTocs rest) "job" =
              s.tags ++ List.replicate (numTocs rest + 1) "job"
            rw [List.append_assoc]
            congr 1
          · rw [hd, hgdurs, List.length_append]
            show s.durations.length + 1 + numTocs rest =
              s.durations.length + (numTocs rest + 1)
            omega
          · rw [hda, hgdata]
          · rw [hv, hgverb]
      | aggregate => simp [jobRunOk] at hok
      | reset => simp [jobRunOk] at hok

theorem jobRunOk_balance (ops : List Op) :
    ∀ (used : List Nat) (pend : List (KeyPair × Nat)),
      jobRunOk used pend ops = true →
      (∀ p ∈ pend, p.1.2 ∈ used) →
      numTocs ops = pend.length + numTics ops := by
  induction ops with
  | nil =>
      intro used pend hok _
      simp only [jobRunOk] at hok
      have hpend : pend = [] := by
        cases pend with
        | nil => rfl
        | cons p rest => simp [List.isEmpty] at hok
      simp [hpend, numTocs, numTics]
  | cons op rest ih =>
      intro used pend hok hpu
      cases op with
      | tic tag i t =>
          simp only [jobRunOk, Bool.and_eq_true, beq_iff_eq, Bool.not_eq_true'] at hok
          obtain ⟨⟨htag, hused⟩, hrest⟩ := hok
          have hiu : i ∉ used := by
            intro hmem
            rw [List.contains_eq_any_beq] at hused
            have : used.any (fun x => i == x) = true := by
              apply List.any_eq_true.mpr
              exact ⟨i, hmem, by simp⟩
            rw [this] at hused
            cases hused
          have hfresh : lookupKV pend (tag, i) = none := by
            apply lookupKV_eq_none
            intro p hp he
            have hmem := hpu p hp
            rw [he] at hmem
            exact hiu hmem
          have hpu' : ∀ p ∈ insertKV pend (tag, i) t, p.1.2 ∈ i :: used := by
            intro p hp
            rcases mem_insertKV pend (tag, i) t p hp with h1 | h2
            · exact List.mem_cons_of_mem i (hpu p h1)
            · rw [h2]
              exact List.mem_cons_self i used
          have hbal := ih (i :: used) (insertKV pend (tag, i) t) hrest hpu'
          have hlen := length_insertKV_of_absent pend (tag, i) t hfresh
          show numTocs rest = pend.length + (numTics rest + 1)
          omega
      | toc tag i t =>
          simp only [jobRunOk, Bool.and_eq_true, beq_iff_eq] at hok
          obtain ⟨⟨htag, hsome⟩, hrest⟩ := hok
          have hpu' : ∀ p ∈ eraseKV pend (tag, i), p.1.2 ∈ used := by
            intro p hp
            exact hpu p (mem_eraseKV pend (tag, i) p hp)
          have hbal := ih used (eraseKV pend (tag, i)) hrest hpu'
          have hlen := length_eraseKV_of_present pend (tag, i) hsome
          show numTocs rest + 1 = pend.length + numTics rest
          omega
      | aggregate => simp [jobRunOk] at hok
      | reset => simp [jobRunOk] at hok

/-- Claim C9: for any interleaving in which contexts with pairwise
distinct ids each start and then stop tag `"job"` exactly once, the whole
run emits no diagnostic, the following `aggregate` emits no diagnostic
either, and the count recorded for `"job"` equals the number of
contexts. -/
theorem concurrent_jobs_count (ops : List Op) (s0 : CppTimer)
    (hok : jobRunOk [] [] ops = true)
    (htics : s0.tics = []) (htags : s0.tags = []) (hdurs : s0.durations = [])
    (hdata : lookupKV s0.data "job" = none) :
    (run s0 ops).2 = [] ∧
    (run s0 ops).1.aggregate.2 = [] ∧
    countOf (run s0 ops).1.aggregate.1.data "job" = numTics ops := by
  obtain ⟨hw, htics1, htags1, hdlen1, hdata1, _hverb1⟩ := run_jobOps ops [] [] s0 hok htics
  have hbal : numTocs ops = numTics ops := by
    have h := jobRunOk_balance ops [] [] hok (by intro p hp; cases hp)
    simpa using h
  have htags1' : (run s0 ops).1.tags = List.replicate (numTocs ops) "job" := by
    rw [htags1, htags, List.nil_append]
  have hdlen1' : (run s0 ops).1.durations.length = numTocs ops := by
    rw [hdlen1, hdurs]
    simp
  refine ⟨hw, ?_, ?_⟩
  · have hagg2 : (run s0 ops).1.aggregate.2 =
        if (run s0 ops).1.verbose
        then (run s0 ops).1.tics.map (fun p => notStoppedMsg p.1.1)
        else [] := rfl
    rw [hagg2, htics1]
    simp
  · have hla := lookup_aggregate (run s0 ops).1 "job"
    cases hN : numTocs ops with
    | zero =>
        have hnm : "job" ∉ (run s0 ops).1.tags := by
          rw [htags1', hN]
          simp
        rw [if_neg hnm, hdata1, hdata] at hla
        unfold countOf
        rw [hla]
        show (0 : Nat) = numTics ops
        rw [← hbal, hN]
    | succ n =>
        have hm : "job" ∈ (run s0 ops).1.tags := by
          rw [htags1', hN]
          exact List.mem_replicate.mpr ⟨Nat.succ_ne_zero n, rfl⟩
        rw [if_pos hm] at hla
        have hseed : seedStat (run s0 ops).1.data "job" = (0, 0, 0) := by
          unfold seedStat
          rw [hdata1, hdata]
          rfl
        rw [hseed] at hla
        have hslen :
            (samplesFor ((run s0 ops).1.tags.zip (run s0 ops).1.durations) "job").length =
              numTocs ops := by
          rw [htags1']
          exact samplesFor_replicate_length (numTocs ops) (run s0 ops).1.durations hdlen1'
        have hcnt : countOf (run s0 ops).1.aggregate.1.data "job" =
            (welfordFold (0, 0, 0)
              (samplesFor ((run s0 ops).1.tags.zip (run s0 ops).1.durations) "job")).2.2 := by
          unfold countOf
          rw [hla]
        rw [hcnt, welfordFold_count, hslen]
        show 0 + numTocs ops = numTics ops
        omega

/-- Witness for C9: two contexts, ids 0 and 1, overlapping in time. -/
theorem concurrent_jobs_count_witness :
    jobRunOk [] []
      [Op.tic "job" 0 5, Op.tic "job" 1 7, Op.toc "job" 1 9, Op.toc "job" 0 11] = true ∧
    (run (CppTimer.init "times" true)
      [Op.tic "job" 0 5, Op.tic "job" 1 7, Op.toc "job" 1 9, Op.toc "job" 0 11]).2 = [] ∧
    (run (CppTimer.init "times" true)
      [Op.tic "job" 0 5, Op.tic "job" 1 7, Op.toc "job" 1 9, Op.toc "job" 0 11]).1.aggregate.2 =
      [] ∧
    countOf (run (CppTimer.init "times" true)
        [Op.tic "job" 0 5, Op.tic "job" 1 7, Op.toc "job" 1 9, Op.toc "job" 0 11]).1.aggregate.1.data
        "job" =
      numTics [Op.tic "job" 0 5, Op.tic "job" 1 7, Op.toc "job" 1 9, Op.toc "job" 0 11] := by
  have h := concurrent_jobs_count
    [Op.tic "job" 0 5, Op.tic "job" 1 7, Op.toc "job" 1 9, Op.toc "job" 0 11]
    (CppTimer.init "times" true) (by decide) rfl rfl rfl rfl
  exact ⟨by decide, h.1, h.2.1, h.2.2⟩

/-- Claim C10: `tags` and `durations` always have equal length in every
state reachable from a freshly constructed timer, and the operations
preserve the positional pairing: `tic` leaves the paired log unchanged, a
successful `toc` appends exactly the pair `(tag, elapsed)`, a failed
`toc` changes nothing, and `aggregate` and `reset` clear both vectors
together. -/
theorem tags_durations_pairing :
    (∀ (nm : String) (vb : Bool) (ops : List Op),
      (run (CppTimer.init nm vb) ops).1.tags.length =
        (run (CppTimer.init nm vb) ops).1.durations.length) ∧
    (∀ (s : CppTimer) (tag : String) (ctx now : Nat),
      (s.tic tag ctx now).tags.zip (s.tic tag ctx now).durations =
        s.tags.zip s.durations) ∧
    (∀ (s : CppTimer) (tag : String) (ctx now st : Nat),
      s.tags.length = s.durations.length →
      lookupKV s.tics (tag, ctx) = some st →
      (s.toc tag ctx now).1.tags.zip (s.toc tag ctx now).1.durations =
        s.tags.zip s.durations ++ [(tag, now - st)]) ∧
    (∀ (s : CppTimer) (tag : String) (ctx now : Nat),
      lookupKV s.tics (tag, ctx) = none → (s.toc tag ctx now).1 = s) ∧
    (∀ s : CppTimer, s.aggregate.1.tags.zip s.aggregate.1.durations = []) ∧
    (∀ s : CppTimer, s.reset.tags.zip s.reset.durations = []) := by
  refine ⟨?_, ?_, ?_, ?_, ?_, ?_⟩
  · intro nm vb ops
    exact run_len ops (CppTimer.init nm vb) rfl
  · intro s tag ctx now
    rfl
  · intro s tag ctx now st hlen hlk
    have htoc : (s.toc tag ctx now).1 =
        { s with
            durations := s.durations ++ [now - st],
            tics := eraseKV s.tics (tag, ctx),
            tags := s.tags ++ [tag] } := by
      simp [CppTimer.toc, hlk]
    rw [htoc]
    show (s.tags ++ [tag]).zip (s.durations ++ [now - st]) =
      s.tags.zip s.durations ++ [(tag, now - st)]
    rw [List.zip_append hlen]
    rfl
  · intro s tag ctx now h
    simp [CppTimer.toc, h]
  · intro s
    rfl
  · intro s
    rfl

/-- Witness for C10: the reachable-length part on a two-operation run and
the `toc` pairing part at a concrete state. -/
theorem tags_durations_pairing_witness :
    (run (CppTimer.init "times" true) [Op.tic "x" 0 2, Op.toc "x" 0 7]).1.tags.length =
      (run (CppTimer.init "times" true) [Op.tic "x" 0 2, Op.toc "x" 0 7]).1.durations.length ∧
    sampleTimer.tags.length = sampleTimer.durations.length ∧
    lookupKV sampleTimer.tics ("a", 0) = some 5 ∧
    (sampleTimer.toc "a" 0 9).1.tags.zip (sampleTimer.toc "a" 0 9).1.durations =
      sampleTimer.tags.zip sampleTimer.durations ++ [("a", 9 - 5)] := by
  refine ⟨tags_durations_pairing.1 "times" true [Op.tic "x" 0 2, Op.toc "x" 0 7],
    by decide, by decide, ?_⟩
  exact tags_durations_pairing.2.2.1 sampleTimer "a" 0 9 5 (by decide) (by decide)
